import Mathlib

set_option autoImplicit false

-- Verification of the defense-simulation core: entity lifecycle (Entity.ts),
-- object pooling (EntityPool.ts), the tower weapon engine (TowerWeaponSystem)
-- and the wave spawn scheduler (WaveManager).  Numbers are modelled as ℚ
-- (the source uses JS doubles; every comparison we rely on is robust to that
-- choice and square-root comparisons are translated to equivalent
-- square-free comparisons, see withinDist below).

namespace Defense

-- JS idiom `v || d` on an optional numeric field: undefined (none) and the
-- falsy number 0 both fall back to the default d.
def jsOr (v : Option ℚ) (d : ℚ) : ℚ :=
  match v with
  | none => d
  | some q => if q = 0 then d else q

-- JS idiom `v || d` on a plain number.
def jsOr0 (v d : ℚ) : ℚ :=
  if v = 0 then d else v

-- Exact square-free translation of `Math.sqrt dSq <= bound` for dSq ≥ 0.
def withinDist (dSq bound : ℚ) : Bool :=
  decide (0 ≤ bound) && decide (dSq ≤ bound ^ 2)

def distSq (x1 y1 x2 y2 : ℚ) : ℚ :=
  (x1 - x2) ^ 2 + (y1 - y2) ^ 2

-- ===========================================================================
-- Entity.ts: takeDamage / destroy (claims C5 and C10)
-- ===========================================================================

-- Minimal observable state of an Entity for the damage/death logic.
structure SimEnt where
  active : Bool
  health : ℚ
deriving DecidableEq

structure DamageOutcome where
  ent : SimEnt
  died : Bool
  destroyCalls : ℕ
deriving DecidableEq

-- Entity.takeDamage: guard on inactive/zero-health, clamp at zero, then
-- destroy() exactly when health reached zero.  Damage callbacks only observe
-- the entity; they are not modelled here (C10 models the callback loop).
def takeDamage (e : SimEnt) (amount : ℚ) : DamageOutcome :=
  if e.active = false ∨ e.health ≤ 0 then
    { ent := e, died := false, destroyCalls := 0 }
  else
    let h2 := max 0 (e.health - amount)
    if h2 ≤ 0 then
      -- destroy(): the guard passes (entity still active), the body runs once
      { ent := { active := false, health := h2 }, died := true, destroyCalls := 1 }
    else
      { ent := { active := e.active, health := h2 }, died := false, destroyCalls := 0 }

-- Entity.destroy on its own: the Bool reports whether the body ran.
def destroyEnt (e : SimEnt) : SimEnt × Bool :=
  if e.active = false then (e, false)
  else ({ active := false, health := e.health }, true)

-- Destroy-callback fan-out (claim C10).  A callback transforms an abstract
-- store and may throw (none).  Entity.destroy wraps every callback in
-- try/catch: a throwing callback is logged and the loop continues, and the
-- kind-specific onDestroy teardown hook still runs afterwards.
def Callback (σ : Type) : Type := σ → Option σ

def runCallbacks {σ : Type} : σ → List (Callback σ) → ℕ → σ × List ℕ
  | st, [], _ => (st, [])
  | st, cb :: rest, i =>
    let st2 :=
      match cb st with
      | some s => s
      | none => st
    let r := runCallbacks st2 rest (i + 1)
    (r.1, i :: r.2)

structure DestroyRun (σ : Type) where
  store : σ
  executed : List ℕ
  teardownRan : Bool
  entActive : Bool

def destroyWithCallbacks {σ : Type} (active : Bool) (cbs : List (Callback σ))
    (teardown : σ → σ) (st : σ) : DestroyRun σ :=
  if active = false then
    { store := st, executed := [], teardownRan := false, entActive := active }
  else
    let r := runCallbacks st cbs 0
    { store := teardown r.1, executed := r.2, teardownRan := true, entActive := false }

-- ===========================================================================
-- Entity.reset + Enemy.onReset + Enemy.spawnAtEdge (claim C4)
-- ===========================================================================

structure EnemyData where
  x : ℚ
  y : ℚ
  health : Option ℚ
  maxHealth : Option ℚ
  radius : Option ℚ
  speed : Option ℚ
  damage : Option ℚ
  reward : Option ℚ
  spawnDistance : Option ℚ
deriving DecidableEq

structure EnemyState where
  x : ℚ
  y : ℚ
  health : ℚ
  maxHealth : ℚ
  radius : ℚ
  active : Bool
  visible : Bool
  alpha : ℚ
  scale : ℚ
  velocityX : ℚ
  velocityY : ℚ
  rotation : ℚ
  rotationSpeed : ℚ
  age : ℚ
  destroyCallbackTags : List ℕ
  damageCallbackTags : List ℕ
  speed : ℚ
  damage : ℚ
  reward : ℚ
  spawnDistance : ℚ
  attackCooldown : ℚ
  isAttacking : Bool
  targetX : ℚ
  targetY : ℚ
  viewportWidth : Option ℚ
  viewportHeight : Option ℚ
deriving DecidableEq

-- Entity.reset: restore base fields from the init data (JS || defaults),
-- reactivate, and clear both callback lists.
def entityResetBase (e : EnemyState) (d : EnemyData) : EnemyState :=
  { e with
    x := d.x
    y := d.y
    health := jsOr d.health 1
    maxHealth := jsOr d.maxHealth (jsOr d.health 1)
    radius := jsOr d.radius 10
    active := true
    visible := true
    alpha := 1
    scale := 1
    velocityX := 0
    velocityY := 0
    rotation := 0
    rotationSpeed := 0
    age := 0
    destroyCallbackTags := []
    damageCallbackTags := [] }

-- Enemy.spawnAtEdge: overwrite the position with a random off-screen edge
-- point; edge is the random edge choice, r the coordinate draw in [0,1).
def spawnAtEdge (e : EnemyState) (edge : Fin 4) (r : ℚ) : EnemyState :=
  let w := jsOr e.viewportWidth 800
  let h := jsOr e.viewportHeight 600
  let m : ℚ := 100
  match edge with
  | 0 => { e with x := (r - 1/2) * (w + m * 2), y := -(h / 2) - m, targetX := 0, targetY := 0 }
  | 1 => { e with x := w / 2 + m, y := (r - 1/2) * (h + m * 2), targetX := 0, targetY := 0 }
  | 2 => { e with x := (r - 1/2) * (w + m * 2), y := h / 2 + m, targetX := 0, targetY := 0 }
  | 3 => { e with x := -(w / 2) - m, y := (r - 1/2) * (h + m * 2), targetX := 0, targetY := 0 }

-- Enemy.onReset: enemy stats from the init data, state cleared, then respawn
-- at a screen edge (the position from the init data is overwritten).
def enemyOnReset (e : EnemyState) (d : EnemyData) (edge : Fin 4) (r : ℚ) : EnemyState :=
  let e1 :=
    { e with
      speed := jsOr d.speed 30
      damage := jsOr d.damage 1
      reward := jsOr d.reward 10
      spawnDistance := jsOr d.spawnDistance 200
      attackCooldown := 0
      isAttacking := false }
  spawnAtEdge e1 edge r

-- Full reset of a pooled enemy, as performed when EntityPool.acquire pops it
-- from the free list: Entity.reset then the Enemy.onReset hook.
def enemyReset (e : EnemyState) (d : EnemyData) (edge : Fin 4) (r : ℚ) : EnemyState :=
  enemyOnReset (entityResetBase e d) d edge r

-- ===========================================================================
-- EntityPool.ts (claims C1, C2, C3)
-- ===========================================================================

-- Entities are identified by the order of their construction.  The JS Set
-- `active` is modelled as an insertion-ordered duplicate-free list, the JS
-- array `pool` (free list) as a list with push/pop acting on the tail.
-- Each live entity carries exactly one registered destroy callback, the
-- auto-release closure installed by acquire (Entity.reset clears all
-- callbacks before acquire registers it), so destroying an entity inside the
-- pool runs release on it; that is inlined in destroyInPool below.

structure PoolConfig where
  initialSize : ℕ
  maxSize : ℕ
deriving DecidableEq

structure EntFlags where
  act : Bool
  pooled : Bool
deriving DecidableEq

structure PoolState where
  freeList : List ℕ
  activeList : List ℕ
  flags : ℕ → EntFlags
  nextId : ℕ

-- JS Set.add: appends iff not already present.
def setAdd (l : List ℕ) (x : ℕ) : List ℕ :=
  if x ∈ l then l else l ++ [x]

-- JS Set.delete: removes the element, keeping insertion order.
def setDelete (l : List ℕ) (x : ℕ) : List ℕ :=
  l.filter (fun y => y ≠ x)

def setFlag (f : ℕ → EntFlags) (i : ℕ) (v : EntFlags) : ℕ → EntFlags :=
  fun j => if j = i then v else f j

def setAct (f : ℕ → EntFlags) (i : ℕ) (b : Bool) : ℕ → EntFlags :=
  setFlag f i { act := b, pooled := (f i).pooled }

-- EntityPool.release: guard on pooled/active membership, remove from the
-- active set, mark inactive, push onto the free list only if the free list
-- is shorter than maxSize.
def releaseOp (cfg : PoolConfig) (s : PoolState) (e : ℕ) : PoolState :=
  if (s.flags e).pooled = false ∨ e ∉ s.activeList then s
  else
    let s2 : PoolState :=
      { s with activeList := setDelete s.activeList e, flags := setAct s.flags e false }
    if s2.freeList.length < cfg.maxSize then
      { s2 with freeList := s2.freeList ++ [e] }
    else s2

-- Entity.destroy of a pool-managed entity: guard on the active flag, mark
-- inactive, then the registered pool callback runs release.
def destroyInPool (cfg : PoolConfig) (s : PoolState) (e : ℕ) : PoolState :=
  if (s.flags e).act = false then s
  else releaseOp cfg { s with flags := setAct s.flags e false } e

-- Entity.reset seen by the pool: the entity becomes active again (field
-- restoration is the entity-level model above).
def resetEnt (s : PoolState) (e : ℕ) : PoolState :=
  { s with flags := setAct s.flags e true }

-- Tail of EntityPool.acquire: entity.pooled = true, add to the active set
-- (and register the auto-release destroy callback).
def finishAcquire (s : PoolState) (e : ℕ) : PoolState × ℕ :=
  ({ s with
      activeList := setAdd s.activeList e
      flags := setFlag s.flags e { act := (s.flags e).act, pooled := true } }, e)

-- EntityPool.acquire.
def acquireOp (cfg : PoolConfig) (s : PoolState) : PoolState × ℕ :=
  match s.freeList.getLast? with
  | some e =>
    -- reuse from the free list: pool.pop() then reset
    finishAcquire (resetEnt { s with freeList := s.freeList.dropLast } e) e
  | none =>
    if s.activeList.length < cfg.maxSize then
      -- construct a fresh entity, then reset it
      let e := s.nextId
      let s1 : PoolState :=
        { s with nextId := s.nextId + 1, flags := setFlag s.flags e { act := true, pooled := true } }
      finishAcquire (resetEnt s1 e) e
    else
      match s.activeList with
      | [] =>
        -- forceReuse fallback: fresh entity, not reset (constructor leaves it active)
        let e := s.nextId
        let s1 : PoolState :=
          { s with nextId := s.nextId + 1, flags := setFlag s.flags e { act := true, pooled := true } }
        finishAcquire s1 e
      | oldest :: _ =>
        -- forceReuse: destroy the first element of the active set (its pool
        -- callback releases it), then reset it for the new occupant
        finishAcquire (resetEnt (destroyInPool cfg s oldest) oldest) oldest

-- EntityPool constructor: preallocate initialSize inactive pooled entities.
def initPool (cfg : PoolConfig) : PoolState :=
  { freeList := List.range cfg.initialSize
    activeList := []
    flags := fun i => { act := false, pooled := decide (i < cfg.initialSize) }
    nextId := cfg.initialSize }

inductive PoolOp where
  | acq : PoolOp
  | rel : ℕ → PoolOp
deriving DecidableEq

def stepPool (cfg : PoolConfig) (s : PoolState) : PoolOp → PoolState
  | PoolOp.acq => (acquireOp cfg s).1
  | PoolOp.rel e => releaseOp cfg s e

def runPool (cfg : PoolConfig) (ops : List PoolOp) : PoolState :=
  ops.foldl (stepPool cfg) (initPool cfg)

-- Inductive invariant behind the corrected pool bound: the active list is
-- duplicate-free and the set of ids ever sitting in the pool structures has
-- at most maxSize elements.
def PoolInv (cfg : PoolConfig) (s : PoolState) : Prop :=
  s.activeList.Nodup ∧ (s.activeList.toFinset ∪ s.freeList.toFinset).card ≤ cfg.maxSize

-- ===========================================================================
-- TowerWeaponSystem (claims C6, C7, C8)
-- ===========================================================================

-- Observable data of an enemy agent used by the weapon engine.  Damage is
-- recorded as a list of (agent id, amount) applications, the calls the code
-- makes to damageEnemy.
structure Agent where
  id : ℕ
  x : ℚ
  y : ℚ
  active : Bool
  health : ℚ
  speed : ℚ
  velocityX : ℚ
  velocityY : ℚ
deriving DecidableEq

inductive WeaponKind where
  | ballistic : WeaponKind
  | energy : WeaponKind
deriving DecidableEq

-- The weapon names the engine dispatches on; otherName covers every
-- remaining direct-hit energy weapon.
inductive WeaponName where
  | laserBeam : WeaponName
  | teslaCoil : WeaponName
  | chainLightningW : WeaponName
  | energyBurst : WeaponName
  | plasmaCannon : WeaponName
  | otherName : WeaponName
deriving DecidableEq

structure WeaponR where
  kind : WeaponKind
  name : WeaponName
  damage : ℚ
  range : ℚ
  fireRate : ℚ
  areaOfEffect : ℚ
  piercing : Bool
  homing : Bool
  continuous : Bool
deriving DecidableEq

inductive TargetingMode where
  | nearest : TargetingMode
  | furthest : TargetingMode
  | weakest : TargetingMode
  | strongest : TargetingMode
  | fastest : TargetingMode
  | slowest : TargetingMode
deriving DecidableEq

-- findTarget validation: active, positive health, within weapon range of the
-- tower at (tx, ty).
def validTarget (tx ty : ℚ) (w : WeaponR) (e : Agent) : Bool :=
  e.active && decide (0 < e.health) && withinDist (distSq e.x e.y tx ty) w.range

-- The JS reduce over validTargets, one running best, strict comparisons so
-- ties keep the first-encountered candidate.
def betterBy (tx ty : ℚ) (mode : TargetingMode) (e acc : Agent) : Bool :=
  match mode with
  | TargetingMode.nearest => decide (distSq e.x e.y tx ty < distSq acc.x acc.y tx ty)
  | TargetingMode.furthest => decide (distSq acc.x acc.y tx ty < distSq e.x e.y tx ty)
  | TargetingMode.weakest => decide (e.health < acc.health)
  | TargetingMode.strongest => decide (acc.health < e.health)
  | TargetingMode.fastest => decide (acc.speed < e.speed)
  | TargetingMode.slowest => decide (e.speed < acc.speed)

def findTarget (tx ty : ℚ) (mode : TargetingMode) (w : WeaponR) (enemies : List Agent) :
    Option Agent :=
  match enemies.filter (validTarget tx ty w) with
  | [] => none
  | v :: vs => some (vs.foldl (fun acc e => if betterBy tx ty mode e acc then e else acc) v)

-- Chain lightning candidate search: the running nearest unvisited active
-- agent within the current bound, ties going to the later candidate because
-- the code compares with <=.  Bounds are kept squared; boundSq is the square
-- of a nonnegative bound throughout.
def chainNextAux (cx cy : ℚ) (hit : List ℕ) :
    List Agent → Option Agent → ℚ → Option Agent
  | [], best, _ => best
  | a :: rest, best, boundSq =>
    if a.id ∉ hit ∧ a.active = true ∧ distSq a.x a.y cx cy ≤ boundSq then
      chainNextAux cx cy hit rest (some a) (distSq a.x a.y cx cy)
    else
      chainNextAux cx cy hit rest best boundSq

-- The search over allEnemies with initial bound r (the chain radius,
-- weapon.areaOfEffect || 80); a negative r admits no candidate.
def chainNext (cx cy r : ℚ) (hit : List ℕ) (all : List Agent) : Option Agent :=
  if r < 0 then none else chainNextAux cx cy hit all none (r ^ 2)

-- handleChainLightning main loop, fuel = maxChains - chains.  Returns the
-- agents damaged, in chain order.
def chainFrom (all : List Agent) (r : ℚ) : ℕ → List ℕ → Agent → List Agent
  | 0, _, _ => []
  | Nat.succ fuel, hit, cur =>
    if cur.id ∈ hit then []
    else
      let hit2 := cur.id :: hit
      cur ::
        (match chainNext cur.x cur.y r hit2 all with
        | none => []
        | some nxt => chainFrom all r fuel hit2 nxt)

def handleChainLightning (r : ℚ) (target : Agent) (all : List Agent) : List Agent :=
  chainFrom all r 5 [] target

-- Specification predicate for one chain hop: dst is an unvisited active
-- agent within chain radius r of the current link src, at minimal distance
-- among all such candidates (square-free formulation: for r ≥ 0,
-- dist ≤ r iff distSq ≤ r ^ 2).
def NearestHop (all : List Agent) (r : ℚ) (visited : List ℕ) (src dst : Agent) : Prop :=
  dst ∈ all ∧ dst.active = true ∧ dst.id ∉ visited ∧ 0 ≤ r ∧
  distSq dst.x dst.y src.x src.y ≤ r ^ 2 ∧
  ∀ b ∈ all, b.active = true → b.id ∉ visited →
    distSq b.x b.y src.x src.y ≤ r ^ 2 →
    distSq dst.x dst.y src.x src.y ≤ distSq b.x b.y src.x src.y

-- handleProjectileHit (claim C7): the primary hit, then, when
-- areaOfEffect > 0, splash of the same magnitude to every other active agent
-- within areaOfEffect of the impact point.
structure ProjectileR where
  x : ℚ
  y : ℚ
  damage : ℚ
  areaOfEffect : ℚ
deriving DecidableEq

def inSplash (p : ProjectileR) (hitId : ℕ) (e : Agent) : Bool :=
  decide (e.id ≠ hitId) && e.active && withinDist (distSq p.x p.y e.x e.y) p.areaOfEffect

def handleProjectileHit (p : ProjectileR) (hitEnemy : Agent) (all : List Agent) :
    List (ℕ × ℚ) :=
  (hitEnemy.id, p.damage) ::
    (if 0 < p.areaOfEffect then
      (all.filter (inSplash p hitEnemy.id)).map (fun e => (e.id, p.damage))
    else [])

-- fireEnergyWeapon dispatch (damage applications only; projectile creation
-- and visual effects carry no immediate damage).
def fireEnergyEvents (tx ty : ℚ) (w : WeaponR) (target : Agent) (all : List Agent) :
    List (ℕ × ℚ) :=
  match w.name with
  | WeaponName.chainLightningW =>
    (handleChainLightning (jsOr0 w.areaOfEffect 80) target all).map (fun a => (a.id, w.damage))
  | WeaponName.energyBurst =>
    let r := jsOr0 w.areaOfEffect w.range
    (all.filter (fun e => withinDist (distSq e.x e.y tx ty) r && e.active)).map
      (fun e => (e.id, w.damage))
  | WeaponName.plasmaCannon => []
  | _ => [(target.id, w.damage)]

-- fireWeapon: stale-target guard, then dispatch by weapon type; ballistic
-- weapons only create a projectile.
def fireWeaponEvents (tx ty : ℚ) (w : WeaponR) (target : Agent) (all : List Agent) :
    List (ℕ × ℚ) :=
  if target.active = false ∨ target.health ≤ 0 then []
  else
    match w.kind with
    | WeaponKind.ballistic => []
    | WeaponKind.energy => fireEnergyEvents tx ty w target all

-- handleContinuousWeapon: per-tick damage * dt to the beam target or to all
-- active agents in range of the field.
def continuousEvents (tx ty : ℚ) (mode : TargetingMode) (w : WeaponR) (dt : ℚ)
    (all : List Agent) : List (ℕ × ℚ) :=
  match w.name with
  | WeaponName.laserBeam =>
    match findTarget tx ty mode w all with
    | some t => [(t.id, w.damage * dt)]
    | none => []
  | WeaponName.teslaCoil =>
    let r := jsOr0 w.areaOfEffect w.range
    (all.filter (fun e => withinDist (distSq e.x e.y tx ty) r && e.active)).map
      (fun e => (e.id, w.damage * dt))
  | _ => []

-- updateWeapon for one tick: the cooldown-gated discrete path (which also
-- advances lastFire when it fires), followed by the continuous path.
-- fireRate is positive for every catalog weapon; ℚ division is used for
-- 1000 / fireRate.
def updateWeaponEvents (tx ty : ℚ) (mode : TargetingMode) (w : WeaponR)
    (tNow lastFire dt : ℚ) (all : List Agent) : List (ℕ × ℚ) × ℚ :=
  let fired : Option (List (ℕ × ℚ)) :=
    if 1000 / w.fireRate ≤ tNow - lastFire then
      match findTarget tx ty mode w all with
      | some t => some (fireWeaponEvents tx ty w t all)
      | none => none
    else none
  let discrete := fired.getD []
  let lastFire2 := if fired.isSome then tNow else lastFire
  let cont := if w.continuous then continuousEvents tx ty mode w dt all else []
  (discrete ++ cont, lastFire2)

-- The laser_beam entry of the weapon catalog.
def laserBeamWeapon : WeaponR :=
  { kind := WeaponKind.energy, name := WeaponName.laserBeam, damage := 1/2, range := 180
    fireRate := 10, areaOfEffect := 0, piercing := true, homing := false, continuous := true }

-- ===========================================================================
-- WaveManager (claim C9)
-- ===========================================================================

-- generateWaveConfig, restricted to the numeric fields the claim is about
-- (the per-type distribution list is independent of the spawn scheduling).
structure WaveConfigR where
  waveNumber : ℕ
  enemyCount : ℚ
  spawnDelay : ℚ
  nextWaveDelay : ℚ
deriving DecidableEq

def generateWaveConfig (baseEnemyCount enemyCountIncrease baseSpawnDelay waveGap : ℚ)
    (w : ℕ) : WaveConfigR :=
  { waveNumber := w
    enemyCount := baseEnemyCount + ((w : ℚ) - 1) * enemyCountIncrease
    spawnDelay := max (1/2) (baseSpawnDelay - ((w : ℚ) - 1) * (1/10))
    nextWaveDelay := waveGap }

structure SpawnSched where
  spawningEnemies : Bool
  queueLength : ℕ
  timeSinceLastSpawn : ℚ
  currentWave : ℕ
  baseSpawnDelay : ℚ
deriving DecidableEq

-- updateWaveSpawning: accumulate dt, recompute a delay from the wave number
-- (note the 0.05 decay constant in the source, where generateWaveConfig used
-- 0.1), and dequeue one entry when the timer reaches it.  The Bool reports
-- whether a spawn happened this tick.
def updateWaveSpawning (st : SpawnSched) (dt : ℚ) : SpawnSched × Bool :=
  if st.spawningEnemies = false ∨ st.queueLength = 0 then
    ({ st with spawningEnemies := false }, false)
  else
    let t := st.timeSinceLastSpawn + dt
    let delay := max (1/2) (st.baseSpawnDelay - ((st.currentWave : ℚ) - 1) * (1/20))
    if delay ≤ t then
      ({ st with timeSinceLastSpawn := 0, queueLength := st.queueLength - 1 }, true)
    else
      ({ st with timeSinceLastSpawn := t }, false)

-- ===========================================================================
-- Concrete sample data used by witnesses and counterexamples
-- ===========================================================================

-- A recycled enemy carrying leftover state from its previous occupant.
def dummyEnemy : EnemyState :=
  { x := 7, y := 8, health := 9, maxHealth := 9, radius := 3, active := false
    visible := false, alpha := 1/2, scale := 2, velocityX := 1, velocityY := 1
    rotation := 1, rotationSpeed := 1, age := 4
    destroyCallbackTags := [99], damageCallbackTags := [98]
    speed := 50, damage := 2, reward := 5, spawnDistance := 100
    attackCooldown := 1, isAttacking := true, targetX := 1, targetY := 1
    viewportWidth := some 800, viewportHeight := some 600 }

def freshEnemyData : EnemyData :=
  { x := 3, y := 4, health := some 5, maxHealth := some 5, radius := some 6
    speed := some 40, damage := some 2, reward := some 12, spawnDistance := some 150 }

def zeroHealthData : EnemyData :=
  { x := 3, y := 4, health := some 0, maxHealth := some 5, radius := some 6
    speed := some 40, damage := some 2, reward := some 12, spawnDistance := some 150 }

def mkAgent (i : ℕ) (px py : ℚ) : Agent :=
  { id := i, x := px, y := py, active := true, health := 10, speed := 5
    velocityX := 0, velocityY := 0 }

-- Eight active agents in a row, neighbours 10 apart, all within the default
-- chain radius 80 of one another.
def chainAgents : List Agent :=
  [mkAgent 1 0 0, mkAgent 2 10 0, mkAgent 3 20 0, mkAgent 4 30 0,
   mkAgent 5 40 0, mkAgent 6 50 0, mkAgent 7 60 0, mkAgent 8 70 0]

def contEnemy : Agent := mkAgent 1 50 0

def splashProj : ProjectileR := { x := 0, y := 0, damage := 2, areaOfEffect := 30 }

-- Primary hit agent plus three others in splash radius and one outside it.
def splashAgents : List Agent :=
  [mkAgent 11 0 0, mkAgent 12 10 0, mkAgent 13 0 20, mkAgent 14 (-15) 0, mkAgent 15 100 0]

-- ===========================================================================
-- Theorems
-- ===========================================================================

/-- C5: takeDamage on an inactive or zero-health entity is a guarded no-op
that returns false, changes no state and never reaches destroy; otherwise it
sets health to max 0 (health - amount), reports death iff the clamped health
reached zero, and calls destroy exactly once in that case; destroy on an
already-inactive entity is a no-op (warning only) that changes no state. -/
theorem c5_takeDamage_destroy (e : SimEnt) (amount : ℚ) :
    ((e.active = false ∨ e.health ≤ 0) →
      takeDamage e amount = { ent := e, died := false, destroyCalls := 0 }) ∧
    (e.active = true → 0 < e.health →
      (takeDamage e amount).ent.health = max 0 (e.health - amount) ∧
      (takeDamage e amount).destroyCalls = (if e.health - amount ≤ 0 then 1 else 0) ∧
      (takeDamage e amount).died = decide (e.health - amount ≤ 0) ∧
      (takeDamage e amount).ent.active = !(decide (e.health - amount ≤ 0))) ∧
    (e.active = false → destroyEnt e = (e, false)) := by
  refine ⟨?_, ?_, ?_⟩
  · intro h
    unfold takeDamage
    rw [if_pos h]
  · intro ha hh
    have hg : ¬(e.active = false ∨ e.health ≤ 0) := by
      rintro (h1 | h2)
      · rw [ha] at h1; exact Bool.noConfusion h1
      · linarith
    have hmax : (max 0 (e.health - amount) ≤ 0) ↔ e.health - amount ≤ 0 := by
      simp [max_le_iff]
    unfold takeDamage
    rw [if_neg hg]
    by_cases hle : e.health - amount ≤ 0
    · rw [if_pos (hmax.mpr hle)]
      simp [hle, max_eq_left hle]
    · rw [if_neg (fun hc => hle (hmax.mp hc))]
      simp [hle, ha]
  · intro ha
    unfold destroyEnt
    rw [if_pos ha]

/-- C5 witness: a concrete inactive entity is untouched; a concrete live
entity damaged past zero is clamped at zero with exactly one destroy call;
destroy on an inactive entity is a no-op. -/
theorem c5_takeDamage_destroy_witness :
    takeDamage { active := false, health := 5 } 3 =
      { ent := { active := false, health := 5 }, died := false, destroyCalls := 0 } ∧
    (takeDamage { active := true, health := 2 } 3).ent.health = 0 ∧
    (takeDamage { active := true, health := 2 } 3).destroyCalls = 1 ∧
    destroyEnt { active := false, health := 5 } = ({ active := false, health := 5 }, false) := by
  have h1 := (c5_takeDamage_destroy { active := false, health := 5 } 3).1 (Or.inl rfl)
  have h2 := (c5_takeDamage_destroy { active := true, health := 2 } 3).2.1 rfl (by norm_num)
  have h3 := (c5_takeDamage_destroy { active := false, health := 5 } 3).2.2 rfl
  refine ⟨h1, ?_, ?_, h3⟩
  · rw [h2.1]; norm_num
  · rw [h2.2.1]; norm_num

-- Helper: the callback loop of Entity.destroy visits every callback index in
-- order, because the try/catch around each callback swallows its exception.
theorem runCallbacks_executed {σ : Type} (st : σ) (cbs : List (Callback σ)) (i : ℕ) :
    (runCallbacks st cbs i).2 = List.range' i cbs.length := by
  induction cbs generalizing st i with
  | nil => simp [runCallbacks]
  | cons cb rest ih =>
    simp only [runCallbacks, List.length_cons, List.range'_succ]
    cases cb st with
    | none => simp [ih]
    | some s2 => simp [ih]

/-- C10: during destroy, a throwing destroy callback does not propagate its
exception (destroyWithCallbacks is a total function into DestroyRun) and all
callbacks are still attempted, in order, with the kind-specific teardown
hook still running afterwards; this holds in particular when some callback
throws (returns none) on every store. -/
theorem c10_destroy_callback_resilience {σ : Type} (st : σ) (cbs : List (Callback σ))
    (teardown : σ → σ) (hthrow : ∃ cb ∈ cbs, ∀ s : σ, cb s = none) :
    (destroyWithCallbacks true cbs teardown st).executed = List.range cbs.length ∧
    (destroyWithCallbacks true cbs teardown st).teardownRan = true ∧
    (destroyWithCallbacks true cbs teardown st).entActive = false := by
  unfold destroyWithCallbacks
  simp [runCallbacks_executed, List.range_eq_range']

/-- C10 witness: with a first callback that always throws, the second
callback still runs (the store still gets its increment) and the teardown
hook still fires. -/
theorem c10_destroy_callback_witness :
    (destroyWithCallbacks true [fun _ => none, fun n => some (n + 1)] (fun n => n * 10)
      (0 : ℕ)).executed = [0, 1] ∧
    (destroyWithCallbacks true [fun _ => none, fun n => some (n + 1)] (fun n => n * 10)
      (0 : ℕ)).teardownRan = true ∧
    (destroyWithCallbacks true [fun _ => none, fun n => some (n + 1)] (fun n => n * 10)
      (0 : ℕ)).store = 10 := by
  have h := c10_destroy_callback_resilience (0 : ℕ)
    [fun _ => none, fun n => some (n + 1)] (fun n => n * 10)
    ⟨fun _ => none, List.mem_cons_self _ _, fun _ => rfl⟩
  exact ⟨h.1, h.2.1, rfl⟩

/-- C9: the claim fails on the code and the intent is clearly the stored
configuration value.  generateWaveConfig stores spawnDelay
max(0.5, base - (w-1) * 0.1) (here 1.4 s for wave 2 at base 1.5), as the
claim says, but updateWaveSpawning recomputes the delay with decay constant
0.05 (1.45 s for wave 2) and never reads the stored field: with the timer at
1.41 s, beyond the stored spawnDelay, no entry is dequeued, while a timer of
1.45 s does dequeue one. -/
theorem c9_spawn_delay_bug :
    (generateWaveConfig 4 2 (3/2) 5 2).spawnDelay = 7/5 ∧
    (7/5 : ℚ) < 141/100 ∧
    (updateWaveSpawning
      { spawningEnemies := true, queueLength := 3, timeSinceLastSpawn := 0,
        currentWave := 2, baseSpawnDelay := 3/2 } (141/100)).2 = false ∧
    (updateWaveSpawning
      { spawningEnemies := true, queueLength := 3, timeSinceLastSpawn := 0,
        currentWave := 2, baseSpawnDelay := 3/2 } (141/100)).1.queueLength = 3 ∧
    (updateWaveSpawning
      { spawningEnemies := true, queueLength := 3, timeSinceLastSpawn := 0,
        currentWave := 2, baseSpawnDelay := 3/2 } (29/20)).2 = true := by
  refine ⟨?_, by norm_num, ?_, ?_, ?_⟩
  · unfold generateWaveConfig
    norm_num
  · unfold updateWaveSpawning
    norm_num
  · unfold updateWaveSpawning
    norm_num
  · unfold updateWaveSpawning
    norm_num

/-- C1 counterexample: the claimed invariant fails as stated.  With config
initialSize 0, maxSize 2 and three acquires, the forced-reuse path leaves
entity 0 simultaneously on the free list and in the active set (the destroy
triggered inside forceReuse releases it onto the free list before acquire
re-adds it to the active set); and with config initialSize 3, maxSize 2,
three acquires of preallocated entities drive the active set to size 3. -/
theorem c1_pool_invariant_counterexample :
    (0 ∈ (runPool ⟨0, 2⟩ [PoolOp.acq, PoolOp.acq, PoolOp.acq]).freeList ∧
      0 ∈ (runPool ⟨0, 2⟩ [PoolOp.acq, PoolOp.acq, PoolOp.acq]).activeList) ∧
    ((runPool ⟨3, 2⟩ [PoolOp.acq, PoolOp.acq, PoolOp.acq]).activeList.length = 3 ∧
      ¬((runPool ⟨3, 2⟩ [PoolOp.acq, PoolOp.acq, PoolOp.acq]).activeList.length ≤ 2)) := by
  decide

/-- C2 counterexample: release pushes onto the free list whenever its length
is below maxSize, not below half of maxSize.  With maxSize 2, after releasing
entity 0 the free list has length 1, which is not below half of maxSize (1),
yet releasing entity 1 still pushes it onto the free list. -/
theorem c2_release_half_counterexample :
    (runPool ⟨0, 2⟩ [PoolOp.acq, PoolOp.acq, PoolOp.rel 0]).freeList.length = 1 ∧
    ¬((runPool ⟨0, 2⟩ [PoolOp.acq, PoolOp.acq, PoolOp.rel 0]).freeList.length < 2 / 2) ∧
    1 ∈ (runPool ⟨0, 2⟩ [PoolOp.acq, PoolOp.acq, PoolOp.rel 0, PoolOp.rel 1]).freeList := by
  decide

/-- C2 amended: for a pooled object in the active set (and not already on the
free list), release removes it from the active set, marks it inactive, and
pushes it onto the free list if and only if the free list length is below
maxSize (the code uses the full maxSize, not half of it, as the cap). -/
theorem c2_release_amended (cfg : PoolConfig) (s : PoolState) (e : ℕ)
    (hp : (s.flags e).pooled = true) (ha : e ∈ s.activeList) (hf : e ∉ s.freeList) :
    e ∉ (releaseOp cfg s e).activeList ∧
    ((releaseOp cfg s e).flags e).act = false ∧
    (e ∈ (releaseOp cfg s e).freeList ↔ s.freeList.length < cfg.maxSize) := by
  have hg : ¬((s.flags e).pooled = false ∨ e ∉ s.activeList) := by
    rintro (h1 | h2)
    · rw [hp] at h1; exact Bool.noConfusion h1
    · exact h2 ha
  unfold releaseOp
  rw [if_neg hg]
  by_cases hlen : s.freeList.length < cfg.maxSize
  · rw [if_pos hlen]
    refine ⟨?_, ?_, ?_⟩
    · simp [setDelete]
    · simp [setAct, setFlag]
    · simp [hlen]
  · rw [if_neg hlen]
    refine ⟨?_, ?_, ?_⟩
    · simp [setDelete]
    · simp [setAct, setFlag]
    · simp [hlen, hf]

/-- C2 witness: releasing entity 0 from a freshly built pool with one active
entity removes it from the active set, deactivates it, and (free list empty,
below maxSize) pushes it onto the free list. -/
theorem c2_release_witness :
    0 ∉ (releaseOp ⟨0, 2⟩ (runPool ⟨0, 2⟩ [PoolOp.acq]) 0).activeList ∧
    ((releaseOp ⟨0, 2⟩ (runPool ⟨0, 2⟩ [PoolOp.acq]) 0).flags 0).act = false ∧
    (0 ∈ (releaseOp ⟨0, 2⟩ (runPool ⟨0, 2⟩ [PoolOp.acq]) 0).freeList ↔
      (runPool ⟨0, 2⟩ [PoolOp.acq]).freeList.length < 2) := by
  exact c2_release_amended ⟨0, 2⟩ (runPool ⟨0, 2⟩ [PoolOp.acq]) 0
    (by decide) (by decide) (by decide)

/-- C3: with maxSize 2, an empty free list and exactly two active objects, a
third acquire force-reuses the object that entered the active set first (the
least-recently-activated member, the head of the insertion-ordered set), and
immediately afterwards the active set has size exactly 2. -/
theorem c3_eviction_determinism (cfg : PoolConfig) (s : PoolState) (a b : ℕ)
    (hmax : cfg.maxSize = 2) (hfree : s.freeList = []) (hact : s.activeList = [a, b])
    (hab : a ≠ b) (haa : (s.flags a).act = true) (hap : (s.flags a).pooled = true) :
    (acquireOp cfg s).2 = a ∧
    (acquireOp cfg s).1.activeList = [b, a] ∧
    (acquireOp cfg s).1.activeList.length = 2 := by
  have hba : b ≠ a := hab.symm
  unfold acquireOp
  rw [hfree]
  simp only [List.getLast?]
  rw [hact, hmax]
  simp only [List.length_cons, List.length_nil]
  rw [if_neg (by norm_num)]
  unfold destroyInPool
  simp only [haa]
  rw [if_neg (by simp)]
  unfold releaseOp
  have hpool2 : (setAct s.flags a false a).pooled = true := by
    simp [setAct, setFlag, hap]
  rw [if_neg (by
    rintro (h1 | h2)
    · rw [hpool2] at h1; exact Bool.noConfusion h1
    · exact h2 (by simp [hact]))]
  simp only [hact, hfree]
  rw [if_pos (by simp [hmax])]
  unfold resetEnt finishAcquire
  simp only []
  have hdel : setDelete [a, b] a = [b] := by
    simp [setDelete, hba]
  rw [hdel]
  have hadd : setAdd [b] a = [b, a] := by
    simp [setAdd, hab]
  simp [hadd]

/-- C3 witness: from a fresh pool with maxSize 2 and two acquires (entities
0 then 1), a third acquire evicts and returns entity 0 and leaves the active
set as exactly two entities, 1 then the recycled 0. -/
theorem c3_eviction_witness :
    (acquireOp ⟨0, 2⟩ (runPool ⟨0, 2⟩ [PoolOp.acq, PoolOp.acq])).2 = 0 ∧
    (acquireOp ⟨0, 2⟩ (runPool ⟨0, 2⟩ [PoolOp.acq, PoolOp.acq])).1.activeList = [1, 0] ∧
    (acquireOp ⟨0, 2⟩ (runPool ⟨0, 2⟩ [PoolOp.acq, PoolOp.acq])).1.activeList.length = 2 := by
  exact c3_eviction_determinism ⟨0, 2⟩ (runPool ⟨0, 2⟩ [PoolOp.acq, PoolOp.acq]) 0 1
    rfl (by decide) (by decide) (by decide) (by decide) (by decide)

-- Helper lemmas for the pool invariant.

theorem setAdd_nodup (l : List ℕ) (x : ℕ) (h : l.Nodup) : (setAdd l x).Nodup := by
  unfold setAdd
  by_cases hx : x ∈ l
  · rw [if_pos hx]; exact h
  · rw [if_neg hx]; simp [List.nodup_append, h, hx]

theorem setAdd_toFinset_subset (l : List ℕ) (x : ℕ) :
    (setAdd l x).toFinset ⊆ insert x l.toFinset := by
  unfold setAdd
  by_cases hx : x ∈ l
  · rw [if_pos hx]; exact Finset.subset_insert x l.toFinset
  · rw [if_neg hx]
    intro y hy
    simp only [List.toFinset_append, Finset.mem_union, List.mem_toFinset,
      List.mem_singleton, Finset.mem_insert] at hy ⊢
    tauto

theorem setDelete_nodup (l : List ℕ) (x : ℕ) (h : l.Nodup) : (setDelete l x).Nodup :=
  h.filter _

theorem setDelete_toFinset_subset (l : List ℕ) (x : ℕ) :
    (setDelete l x).toFinset ⊆ l.toFinset := by
  intro y hy
  simp only [setDelete, List.mem_toFinset, List.mem_filter] at hy ⊢
  exact hy.1

theorem dropLast_toFinset_subset (l : List ℕ) : l.dropLast.toFinset ⊆ l.toFinset := by
  intro y hy
  simp only [List.mem_toFinset] at hy ⊢
  exact (List.dropLast_sublist l).subset hy

-- The union of ids reachable from the two pool containers.
theorem poolInv_of_subset (cfg : PoolConfig) (s2 s1 : PoolState)
    (hnd : s2.activeList.Nodup)
    (hsub : s2.activeList.toFinset ∪ s2.freeList.toFinset ⊆
      s1.activeList.toFinset ∪ s1.freeList.toFinset)
    (h : PoolInv cfg s1) : PoolInv cfg s2 :=
  ⟨hnd, le_trans (Finset.card_le_card hsub) h.2⟩

theorem poolInv_release (cfg : PoolConfig) (s : PoolState) (e : ℕ)
    (h : PoolInv cfg s) : PoolInv cfg (releaseOp cfg s e) := by
  unfold releaseOp
  by_cases hg : (s.flags e).pooled = false ∨ e ∉ s.activeList
  · rw [if_pos hg]; exact h
  · rw [if_neg hg]
    have he : e ∈ s.activeList := by
      by_contra hc; exact hg (Or.inr hc)
    by_cases hlen : s.freeList.length < cfg.maxSize
    · rw [if_pos hlen]
      refine poolInv_of_subset cfg _ s (setDelete_nodup _ _ h.1) ?_ h
      intro y hy
      simp only [List.toFinset_append, Finset.union_assoc, Finset.mem_union,
        List.mem_toFinset, List.mem_singleton] at hy ⊢
      rcases hy with hy | hy | hy
      · exact Or.inl ((List.mem_filter.mp hy).1)
      · exact Or.inr hy
      · subst hy; exact Or.inl he
    · rw [if_neg hlen]
      refine poolInv_of_subset cfg _ s (setDelete_nodup _ _ h.1) ?_ h
      intro y hy
      simp only [Finset.mem_union, List.mem_toFinset] at hy ⊢
      rcases hy with hy | hy
      · exact Or.inl ((List.mem_filter.mp hy).1)
      · exact Or.inr hy

theorem destroyInPool_lists (cfg : PoolConfig) (s : PoolState) (e : ℕ) :
    ((destroyInPool cfg s e).activeList = s.activeList ∧
      (destroyInPool cfg s e).freeList = s.freeList) ∨
    ((destroyInPool cfg s e).activeList = setDelete s.activeList e ∧
      ((destroyInPool cfg s e).freeList = s.freeList ∨
        (destroyInPool cfg s e).freeList = s.freeList ++ [e])) := by
  unfold destroyInPool releaseOp
  by_cases h1 : (s.flags e).act = false
  · rw [if_pos h1]; exact Or.inl ⟨rfl, rfl⟩
  · rw [if_neg h1]
    by_cases h2 : ((setAct s.flags e false) e).pooled = false ∨ e ∉ s.activeList
    · rw [if_pos h2]; exact Or.inl ⟨rfl, rfl⟩
    · rw [if_neg h2]
      by_cases h3 : s.freeList.length < cfg.maxSize
      · rw [if_pos h3]; exact Or.inr ⟨rfl, Or.inr rfl⟩
      · rw [if_neg h3]; exact Or.inr ⟨rfl, Or.inl rfl⟩

theorem poolInv_acquire (cfg : PoolConfig) (s : PoolState) (h1 : 1 ≤ cfg.maxSize)
    (h : PoolInv cfg s) : PoolInv cfg (acquireOp cfg s).1 := by
  unfold acquireOp
  rcases hfl : s.freeList.getLast? with _ | e
  · have hfe : s.freeList = [] := List.getLast?_eq_none_iff.mp hfl
    by_cases hlt : s.activeList.length < cfg.maxSize
    · rw [if_pos hlt]
      simp only [finishAcquire, resetEnt]
      refine ⟨setAdd_nodup _ _ h.1, ?_⟩
      have hcard : s.activeList.toFinset.card = s.activeList.length :=
        List.toFinset_card_of_nodup h.1
      have hsub : (setAdd s.activeList s.nextId).toFinset ∪ s.freeList.toFinset ⊆
          insert s.nextId s.activeList.toFinset := by
        rw [hfe]
        simpa using setAdd_toFinset_subset s.activeList s.nextId
      refine le_trans (Finset.card_le_card hsub) ?_
      refine le_trans (Finset.card_insert_le _ _) ?_
      omega
    · rw [if_neg hlt]
      rcases hac : s.activeList with _ | ⟨oldest, rest⟩

      · exfalso
        rw [hac] at hlt
        simp only [List.length_nil] at hlt
        omega
      · have hold : oldest ∈ s.activeList := by rw [hac]; exact List.mem_cons_self _ _
        simp only [finishAcquire, resetEnt]
        rcases destroyInPool_lists cfg s oldest with ⟨ha2, hf2⟩ | ⟨ha2, hf2⟩
        · refine poolInv_of_subset cfg _ s ?_ ?_ h
          · simp only [ha2]
            exact setAdd_nodup _ _ h.1
          · simp only [ha2, hf2]
            intro y hy
            rcases Finset.mem_union.mp hy with hy | hy
            · rcases Finset.mem_insert.mp (setAdd_toFinset_subset _ _ hy) with hy | hy
              · subst hy
                exact Finset.mem_union_left _ (List.mem_toFinset.mpr hold)
              · exact Finset.mem_union_left _ hy
            · exact Finset.mem_union_right _ hy
        · refine poolInv_of_subset cfg _ s ?_ ?_ h
          · simp only [ha2]
            exact setAdd_nodup _ _ (setDelete_nodup _ _ h.1)
          · simp only [ha2]
            intro y hy
            rcases Finset.mem_union.mp hy with hy | hy
            · rcases Finset.mem_insert.mp (setAdd_toFinset_subset _ _ hy) with hy | hy
              · subst hy
                exact Finset.mem_union_left _ (List.mem_toFinset.mpr hold)
              · exact Finset.mem_union_left _ (setDelete_toFinset_subset _ _ hy)
            · rcases hf2 with hf2 | hf2
              · rw [hf2] at hy
                exact Finset.mem_union_right _ hy
              · rw [hf2] at hy
                rw [List.toFinset_append] at hy
                rcases Finset.mem_union.mp hy with hy | hy
                · exact Finset.mem_union_right _ hy
                · simp only [List.toFinset_cons, List.toFinset_nil,
                    insert_emptyc_eq, Finset.mem_singleton] at hy
                  subst hy
                  exact Finset.mem_union_left _ (List.mem_toFinset.mpr hold)
  · have he : e ∈ s.freeList := List.mem_of_mem_getLast? hfl
    simp only [finishAcquire, resetEnt]
    refine poolInv_of_subset cfg _ s (setAdd_nodup _ _ h.1) ?_ h
    intro y hy
    rcases Finset.mem_union.mp hy with hy | hy
    · rcases Finset.mem_insert.mp (setAdd_toFinset_subset _ _ hy) with hy | hy
      · subst hy
        exact Finset.mem_union_right _ (List.mem_toFinset.mpr he)
      · exact Finset.mem_union_left _ hy
    · exact Finset.mem_union_right _ (dropLast_toFinset_subset _ hy)

theorem poolInv_init (cfg : PoolConfig) (h2 : cfg.initialSize ≤ cfg.maxSize) :
    PoolInv cfg (initPool cfg) := by
  constructor
  · exact List.nodup_nil
  · simp only [initPool, List.toFinset_nil, Finset.empty_union]
    rw [List.toFinset_card_of_nodup (List.nodup_range _), List.length_range]
    exact h2

theorem poolInv_step (cfg : PoolConfig) (s : PoolState) (op : PoolOp)
    (h1 : 1 ≤ cfg.maxSize) (h : PoolInv cfg s) : PoolInv cfg (stepPool cfg s op) := by
  cases op with
  | acq => exact poolInv_acquire cfg s h1 h
  | rel e => exact poolInv_release cfg s e h

theorem poolInv_run (cfg : PoolConfig) (ops : List PoolOp)
    (h1 : 1 ≤ cfg.maxSize) (h2 : cfg.initialSize ≤ cfg.maxSize) :
    PoolInv cfg (runPool cfg ops) := by
  unfold runPool
  have hgen : ∀ (l : List PoolOp) (s : PoolState), PoolInv cfg s →
      PoolInv cfg (l.foldl (stepPool cfg) s) := by
    intro l
    induction l with
    | nil => intro s hs; exact hs
    | cons op t ih =>
      intro s hs
      exact ih _ (poolInv_step cfg s op h1 hs)
  exact hgen ops _ (poolInv_init cfg h2)

/-- C1 amended: for every configuration whose initialSize does not exceed
maxSize (with maxSize at least 1, as the constructor's defaulting
guarantees) and every sequence of acquire and release operations, the active
set's size is at most maxSize at every observation point.  The disjointness
half of the original claim does not hold: after an at-capacity acquire the
force-reused entity sits in the active set and on the free list at once (see
the counterexample). -/
theorem c1_pool_bound_amended (cfg : PoolConfig) (ops : List PoolOp) (k : ℕ)
    (h1 : 1 ≤ cfg.maxSize) (h2 : cfg.initialSize ≤ cfg.maxSize) :
    (runPool cfg (ops.take k)).activeList.length ≤ cfg.maxSize := by
  obtain ⟨hnd, hcard⟩ := poolInv_run cfg (ops.take k) h1 h2
  calc (runPool cfg (ops.take k)).activeList.length
      = (runPool cfg (ops.take k)).activeList.toFinset.card :=
        (List.toFinset_card_of_nodup hnd).symm
    _ ≤ ((runPool cfg (ops.take k)).activeList.toFinset ∪
          (runPool cfg (ops.take k)).freeList.toFinset).card :=
        Finset.card_le_card (Finset.subset_union_left)
    _ ≤ cfg.maxSize := hcard

/-- C1 witness: the bound evaluated on a concrete trace that exercises the
forced-reuse path, observed after each of the three acquires. -/
theorem c1_pool_bound_witness :
    (runPool ⟨0, 2⟩ ([PoolOp.acq, PoolOp.acq, PoolOp.acq].take 2)).activeList.length ≤ 2 ∧
    (runPool ⟨0, 2⟩ ([PoolOp.acq, PoolOp.acq, PoolOp.acq].take 3)).activeList.length ≤ 2 := by
  exact ⟨c1_pool_bound_amended ⟨0, 2⟩ [PoolOp.acq, PoolOp.acq, PoolOp.acq] 2
      (by norm_num) (by norm_num),
    c1_pool_bound_amended ⟨0, 2⟩ [PoolOp.acq, PoolOp.acq, PoolOp.acq] 3
      (by norm_num) (by norm_num)⟩

/-- C4 counterexample: the observable fields of a re-acquired pooled enemy
do not always equal the new initData values.  With initData health 0, the JS
falsy-default in Entity.reset yields health 1, not 0; and the position from
initData (x = 3) is overwritten by Enemy.onReset's respawn at a screen edge
(here x = 500), so x, y never come from initData for enemies. -/
theorem c4_roundtrip_counterexample :
    (enemyReset dummyEnemy zeroHealthData 1 (1/2)).health ≠ 0 ∧
    (enemyReset dummyEnemy zeroHealthData 1 (1/2)).health = 1 ∧
    (enemyReset dummyEnemy zeroHealthData 1 (1/2)).x ≠ 3 ∧
    (enemyReset dummyEnemy zeroHealthData 1 (1/2)).x = 500 := by
  norm_num [enemyReset, enemyOnReset, entityResetBase, spawnAtEdge, dummyEnemy,
    zeroHealthData, jsOr]

/-- C4 amended: releasing then re-acquiring a pooled enemy resets health,
maxHealth and radius to exactly the new initData values whenever those are
nonzero (zero or missing values fall back to the defaults 1, health and 10),
reactivates it and clears every destroy and damage callback registered by
the previous occupant; the position is not taken from initData but
re-randomized onto one of the four viewport edge margins. -/
theorem c4_roundtrip_amended (e : EnemyState) (d : EnemyData) (edge : Fin 4) (r : ℚ)
    (h mh rad : ℚ) (hh : d.health = some h) (hh0 : h ≠ 0)
    (hm : d.maxHealth = some mh) (hm0 : mh ≠ 0)
    (hr : d.radius = some rad) (hr0 : rad ≠ 0) :
    (enemyReset e d edge r).health = h ∧
    (enemyReset e d edge r).maxHealth = mh ∧
    (enemyReset e d edge r).radius = rad ∧
    (enemyReset e d edge r).active = true ∧
    (enemyReset e d edge r).destroyCallbackTags = [] ∧
    (enemyReset e d edge r).damageCallbackTags = [] ∧
    ((enemyReset e d edge r).x = jsOr e.viewportWidth 800 / 2 + 100 ∨
      (enemyReset e d edge r).x = -(jsOr e.viewportWidth 800 / 2) - 100 ∨
      (enemyReset e d edge r).y = jsOr e.viewportHeight 600 / 2 + 100 ∨
      (enemyReset e d edge r).y = -(jsOr e.viewportHeight 600 / 2) - 100) := by
  unfold enemyReset enemyOnReset entityResetBase spawnAtEdge
  fin_cases edge <;>
    simp [jsOr, hh, hh0, hm, hm0, hr, hr0]

/-- C4 witness: a concrete recycled enemy reset with nonzero initData values
takes exactly those values, has no leftover callbacks, and respawns on a
viewport edge margin. -/
theorem c4_roundtrip_witness :
    (enemyReset dummyEnemy freshEnemyData 0 (1/2)).health = 5 ∧
    (enemyReset dummyEnemy freshEnemyData 0 (1/2)).maxHealth = 5 ∧
    (enemyReset dummyEnemy freshEnemyData 0 (1/2)).radius = 6 ∧
    (enemyReset dummyEnemy freshEnemyData 0 (1/2)).active = true ∧
    (enemyReset dummyEnemy freshEnemyData 0 (1/2)).destroyCallbackTags = [] ∧
    (enemyReset dummyEnemy freshEnemyData 0 (1/2)).damageCallbackTags = [] ∧
    ((enemyReset dummyEnemy freshEnemyData 0 (1/2)).x =
        jsOr dummyEnemy.viewportWidth 800 / 2 + 100 ∨
      (enemyReset dummyEnemy freshEnemyData 0 (1/2)).x =
        -(jsOr dummyEnemy.viewportWidth 800 / 2) - 100 ∨
      (enemyReset dummyEnemy freshEnemyData 0 (1/2)).y =
        jsOr dummyEnemy.viewportHeight 600 / 2 + 100 ∨
      (enemyReset dummyEnemy freshEnemyData 0 (1/2)).y =
        -(jsOr dummyEnemy.viewportHeight 600 / 2) - 100) := by
  exact c4_roundtrip_amended dummyEnemy freshEnemyData 0 (1/2) 5 5 6
    rfl (by norm_num) rfl (by norm_num) rfl (by norm_num)

-- Helper for C7: with duplicate-free mapped keys, filtering then mapping
-- counts a member's key exactly once iff it passes the filter.
theorem count_filter_map (f : Agent → ℕ) (p : Agent → Bool) (l : List Agent)
    (hn : (l.map f).Nodup) (e : Agent) (he : e ∈ l) :
    ((l.filter p).map f).count (f e) = if p e then 1 else 0 := by
  induction l with
  | nil => cases he
  | cons a t ih =>
    simp only [List.map_cons, List.nodup_cons] at hn
    rcases List.mem_cons.mp he with he1 | he2
    · subst he1
      have htail : ((t.filter p).map f).count (f e) = 0 := by
        rw [List.count_eq_zero]
        intro hc
        rcases List.mem_map.mp hc with ⟨y, hy, hyf⟩
        exact hn.1 (hyf ▸ List.mem_map_of_mem f (List.mem_of_mem_filter hy))
      by_cases hp : p e = true
      · rw [List.filter_cons_of_pos hp]
        simp [hp, htail]
      · rw [List.filter_cons_of_neg hp]
        simp [hp, htail]
    · have hfe : f e ≠ f a := by
        intro hc
        exact hn.1 (hc ▸ List.mem_map_of_mem f he2)
      by_cases hp : p a = true
      · rw [List.filter_cons_of_pos hp, List.map_cons, List.count_cons, ih hn.2 he2]
        simp [hfe, Ne.symm hfe]
      · rw [List.filter_cons_of_neg hp]
        exact ih hn.2 he2

/-- C7: when an area-of-effect projectile hits primary agent A, the damage
applications are: exactly one to A, exactly one of the same magnitude to
every other active agent within areaOfEffect of the impact point, and none
to anyone else; A is excluded from the splash loop and never double-hit. -/
theorem c7_splash_exclusion (p : ProjectileR) (A : Agent) (all : List Agent)
    (hn : (all.map Agent.id).Nodup) (haoe : 0 < p.areaOfEffect) :
    ((handleProjectileHit p A all).map Prod.fst).count A.id = 1 ∧
    (∀ e ∈ all, e.id ≠ A.id →
      ((handleProjectileHit p A all).map Prod.fst).count e.id =
        if e.active = true ∧ distSq p.x p.y e.x e.y ≤ p.areaOfEffect ^ 2 then 1 else 0) ∧
    (∀ ev ∈ handleProjectileHit p A all, ev.2 = p.damage) := by
  have hmap : (handleProjectileHit p A all).map Prod.fst =
      A.id :: (all.filter (inSplash p A.id)).map Agent.id := by
    unfold handleProjectileHit
    rw [if_pos haoe]
    simp [List.map_map, Function.comp]
  refine ⟨?_, ?_, ?_⟩
  · rw [hmap]
    have htail : ((all.filter (inSplash p A.id)).map Agent.id).count A.id = 0 := by
      rw [List.count_eq_zero]
      intro hc
      rcases List.mem_map.mp hc with ⟨e, hef, hei⟩
      have := (List.mem_filter.mp hef).2
      simp only [inSplash, Bool.and_eq_true, decide_eq_true_eq] at this
      exact this.1.1 hei
    simp [htail]
  · intro e hel hne
    rw [hmap]
    have hcnt := count_filter_map Agent.id (inSplash p A.id) all hn e hel
    have hiff : inSplash p A.id e = true ↔
        (e.active = true ∧ distSq p.x p.y e.x e.y ≤ p.areaOfEffect ^ 2) := by
      simp [inSplash, withinDist, hne, le_of_lt haoe]
    rw [List.count_cons, hcnt]
    simp only [beq_iff_eq]
    rw [if_neg (fun hc => hne (Eq.symm hc)), add_zero]
    by_cases hc : e.active = true ∧ distSq p.x p.y e.x e.y ≤ p.areaOfEffect ^ 2
    · rw [if_pos (hiff.mpr hc), if_pos hc]
    · rw [if_neg (fun hb => hc (hiff.mp hb)), if_neg hc]
  · intro ev hev
    unfold handleProjectileHit at hev
    rw [if_pos haoe] at hev
    rcases List.mem_cons.mp hev with hev | hev
    · rw [hev]
    · rcases List.mem_map.mp hev with ⟨e, _, hei⟩
      rw [← hei]

/-- C7 witness: a projectile with areaOfEffect 30 hitting agent 11 at the
origin with agents 12, 13, 14 inside the splash radius and agent 15 outside
it applies exactly one damage event to 11, one to 12, and none to 15. -/
theorem c7_splash_exclusion_witness :
    ((handleProjectileHit splashProj (mkAgent 11 0 0) splashAgents).map Prod.fst).count 11 = 1 ∧
    ((handleProjectileHit splashProj (mkAgent 11 0 0) splashAgents).map Prod.fst).count 12 = 1 ∧
    ((handleProjectileHit splashProj (mkAgent 11 0 0) splashAgents).map Prod.fst).count 15 = 0 := by
  have h := c7_splash_exclusion splashProj (mkAgent 11 0 0) splashAgents
    (by decide) (by norm_num [splashProj])
  refine ⟨by simpa [mkAgent] using h.1, ?_, ?_⟩
  · have h2 := h.2.1 (mkAgent 12 10 0) (by decide) (by decide)
    rw [if_pos (by norm_num [mkAgent, distSq, splashProj])] at h2
    simpa [mkAgent] using h2
  · have h2 := h.2.1 (mkAgent 15 100 0) (by decide) (by decide)
    rw [if_neg (by norm_num [mkAgent, distSq, splashProj])] at h2
    simpa [mkAgent] using h2

-- Helper for C8: the JS reduce with a single running best returns an element
-- of the candidate list.
theorem foldl_pick_mem (f : Agent → Agent → Bool) :
    ∀ (vs : List Agent) (v : Agent),
      vs.foldl (fun acc e => if f e acc then e else acc) v ∈ v :: vs := by
  intro vs
  induction vs with
  | nil => intro v; exact List.mem_cons_self _ _
  | cons a t ih =>
    intro v
    simp only [List.foldl_cons]
    rcases List.mem_cons.mp (ih (if f a v then a else v)) with h1 | h1
    · rw [h1]
      by_cases hf : f a v = true
      · rw [if_pos hf]
        exact List.mem_cons_of_mem _ (List.mem_cons_self _ _)
      · rw [if_neg hf]
        exact List.mem_cons_self _ _
    · exact List.mem_cons_of_mem _ (List.mem_cons_of_mem _ h1)

theorem findTarget_mem_valid (tx ty : ℚ) (mode : TargetingMode) (w : WeaponR)
    (enemies : List Agent) (t : Agent)
    (h : findTarget tx ty mode w enemies = some t) :
    t ∈ enemies.filter (validTarget tx ty w) := by
  unfold findTarget at h
  cases hf : enemies.filter (validTarget tx ty w) with
  | nil => rw [hf] at h; cases h
  | cons v vs =>
    rw [hf] at h
    injection h with h2
    exact h2 ▸ foldl_pick_mem (betterBy tx ty mode) vs v

theorem findTarget_valid (tx ty : ℚ) (mode : TargetingMode) (w : WeaponR)
    (enemies : List Agent) (t : Agent)
    (h : findTarget tx ty mode w enemies = some t) :
    t.active = true ∧ 0 < t.health := by
  have hv := (List.mem_filter.mp (findTarget_mem_valid tx ty mode w enemies t h)).2
  simp only [validTarget, Bool.and_eq_true, decide_eq_true_eq] at hv
  exact ⟨hv.1.1, hv.1.2⟩

/-- C8 counterexample: with the catalog laser beam (damage 0.5, fireRate 10,
continuous) whose cooldown has elapsed and one enemy in range, the tick
applies a discrete full-damage hit through the cooldown gate in addition to
the damage * dt continuous application: the gate is not bypassed and the
tick total is 0.5 + 0.5/60, not damage * dt. -/
theorem c8_continuous_counterexample :
    (updateWeaponEvents 0 0 TargetingMode.nearest laserBeamWeapon 1000 0 (1/60)
        [contEnemy]).1 = [(1, 1/2), (1, 1/120)] ∧
    ((updateWeaponEvents 0 0 TargetingMode.nearest laserBeamWeapon 1000 0 (1/60)
        [contEnemy]).1.map Prod.snd).sum ≠ laserBeamWeapon.damage * (1/60) := by
  refine ⟨?_, ?_⟩
  · norm_num [updateWeaponEvents, findTarget, validTarget, withinDist, distSq,
      laserBeamWeapon, contEnemy, mkAgent, fireWeaponEvents, fireEnergyEvents,
      continuousEvents, betterBy]
  · norm_num [updateWeaponEvents, findTarget, validTarget, withinDist, distSq,
      laserBeamWeapon, contEnemy, mkAgent, fireWeaponEvents, fireEnergyEvents,
      continuousEvents, betterBy]

/-- C8 amended: a continuous (beam or field) weapon applies damage * dt
every tick, to the selected target for the beam and to every active agent in
range for the field; but it does not bypass the cooldown gate: whenever
now - lastFire reaches 1000 / fireRate and a target is selected, the weapon
additionally fires through the discrete path, applying one full-damage hit
to the selected target (and lastFire advances); when the cooldown has not
elapsed, the tick's events are exactly the continuous ones. -/
theorem c8_continuous_amended (tx ty : ℚ) (mode : TargetingMode) (w : WeaponR)
    (tNow lastFire dt : ℚ) (all : List Agent)
    (hc : w.continuous = true) (hk : w.kind = WeaponKind.energy)
    (hn : w.name = WeaponName.laserBeam ∨ w.name = WeaponName.teslaCoil) :
    (tNow - lastFire < 1000 / w.fireRate →
      (updateWeaponEvents tx ty mode w tNow lastFire dt all).1 =
        continuousEvents tx ty mode w dt all ∧
      (updateWeaponEvents tx ty mode w tNow lastFire dt all).2 = lastFire) ∧
    (1000 / w.fireRate ≤ tNow - lastFire →
      ∀ t, findTarget tx ty mode w all = some t →
        (updateWeaponEvents tx ty mode w tNow lastFire dt all).1 =
          (t.id, w.damage) :: continuousEvents tx ty mode w dt all ∧
        (updateWeaponEvents tx ty mode w tNow lastFire dt all).2 = tNow) ∧
    (∀ ev ∈ continuousEvents tx ty mode w dt all, ev.2 = w.damage * dt) := by
  refine ⟨?_, ?_, ?_⟩
  · intro hlt
    unfold updateWeaponEvents
    rw [if_neg (not_le.mpr hlt)]
    simp [hc]
  · intro hge t ht
    have hvalid := findTarget_valid tx ty mode w all t ht
    have hguard : ¬(t.active = false ∨ t.health ≤ 0) := by
      rintro (h1 | h1)
      · rw [hvalid.1] at h1; exact Bool.noConfusion h1
      · linarith [hvalid.2]
    unfold updateWeaponEvents
    rw [if_pos hge, ht]
    have hfire : fireWeaponEvents tx ty w t all = [(t.id, w.damage)] := by
      unfold fireWeaponEvents
      rw [if_neg hguard, hk]
      unfold fireEnergyEvents
      rcases hn with hn | hn <;> rw [hn]
    simp [hfire, hc]
  · intro ev hev
    rcases hn with hn | hn
    · unfold continuousEvents at hev
      rw [hn] at hev
      cases hft : findTarget tx ty mode w all with
      | none => rw [hft] at hev; cases hev
      | some t =>
        rw [hft] at hev
        rcases List.mem_cons.mp hev with h1 | h1
        · rw [h1]
        · cases h1
    · unfold continuousEvents at hev
      rw [hn] at hev
      rcases List.mem_map.mp hev with ⟨e, _, hei⟩
      rw [← hei]

/-- C8 witness: the amended statement evaluated on the catalog laser beam
with one in-range enemy and an elapsed cooldown: the tick's events are the
discrete full-damage hit followed by the damage * dt continuous hit. -/
theorem c8_continuous_witness :
    (updateWeaponEvents 0 0 TargetingMode.nearest laserBeamWeapon 1000 0 (1/60)
        [contEnemy]).1 = (1, 1/2) :: continuousEvents 0 0 TargetingMode.nearest
          laserBeamWeapon (1/60) [contEnemy] ∧
    (updateWeaponEvents 0 0 TargetingMode.nearest laserBeamWeapon 1000 0 (1/60)
        [contEnemy]).2 = 1000 := by
  have h := (c8_continuous_amended 0 0 TargetingMode.nearest laserBeamWeapon 1000 0 (1/60)
    [contEnemy] rfl rfl (Or.inl rfl)).2.1 (by norm_num [laserBeamWeapon]) contEnemy
    (by norm_num [findTarget, validTarget, withinDist, distSq, laserBeamWeapon,
      contEnemy, mkAgent])
  refine ⟨?_, h.2⟩
  rw [h.1]
  norm_num [contEnemy, mkAgent, laserBeamWeapon]

-- Helper lemmas for C6: the running-best candidate search.

theorem chainNextAux_none (cx cy : ℚ) (hit : List ℕ) :
    ∀ (rest : List Agent) (best : Option Agent) (boundSq : ℚ),
      chainNextAux cx cy hit rest best boundSq = none →
      best = none ∧ ∀ a ∈ rest, a.active = true → a.id ∉ hit →
        ¬(distSq a.x a.y cx cy ≤ boundSq) := by
  intro rest
  induction rest with
  | nil =>
    intro best boundSq h
    refine ⟨h, ?_⟩
    intro a ha
    cases ha
  | cons a t ih =>
    intro best boundSq h
    unfold chainNextAux at h
    by_cases hc : a.id ∉ hit ∧ a.active = true ∧ distSq a.x a.y cx cy ≤ boundSq
    · rw [if_pos hc] at h
      exact Option.noConfusion (ih _ _ h).1
    · rw [if_neg hc] at h
      obtain ⟨hb, hrest⟩ := ih _ _ h
      refine ⟨hb, ?_⟩
      intro x hx hxa hxh
      rcases List.mem_cons.mp hx with hx1 | hx2
      · subst hx1
        intro hd
        exact hc ⟨hxh, hxa, hd⟩
      · exact hrest x hx2 hxa hxh

theorem chainNextAux_some (cx cy : ℚ) (hit : List ℕ) :
    ∀ (rest : List Agent) (best : Option Agent) (boundSq : ℚ) (nxt : Agent),
      chainNextAux cx cy hit rest best boundSq = some nxt →
      (∀ b, best = some b →
        b.active = true ∧ b.id ∉ hit ∧ distSq b.x b.y cx cy = boundSq) →
      nxt.active = true ∧ nxt.id ∉ hit ∧ (best = some nxt ∨ nxt ∈ rest) ∧
      distSq nxt.x nxt.y cx cy ≤ boundSq ∧
      (∀ a ∈ rest, a.active = true → a.id ∉ hit →
        distSq a.x a.y cx cy ≤ boundSq →
        distSq nxt.x nxt.y cx cy ≤ distSq a.x a.y cx cy) := by
  intro rest
  induction rest with
  | nil =>
    intro best boundSq nxt h hbest
    obtain ⟨ha, hh, hd⟩ := hbest nxt h
    refine ⟨ha, hh, Or.inl h, le_of_eq hd, ?_⟩
    intro a ha2
    cases ha2
  | cons a t ih =>
    intro best boundSq nxt h hbest
    unfold chainNextAux at h
    by_cases hc : a.id ∉ hit ∧ a.active = true ∧ distSq a.x a.y cx cy ≤ boundSq
    · rw [if_pos hc] at h
      have hbest2 : ∀ b, (some a : Option Agent) = some b →
          b.active = true ∧ b.id ∉ hit ∧ distSq b.x b.y cx cy = distSq a.x a.y cx cy := by
        intro b hb
        injection hb with hb
        subst hb
        exact ⟨hc.2.1, hc.1, rfl⟩
      obtain ⟨h1, h2, h3, h4, h5⟩ := ih _ _ _ h hbest2
      refine ⟨h1, h2, ?_, le_trans h4 hc.2.2, ?_⟩
      · rcases h3 with h3 | h3
        · injection h3 with h3
          exact Or.inr (h3 ▸ List.mem_cons_self _ _)
        · exact Or.inr (List.mem_cons_of_mem _ h3)
      · intro x hx hxa hxh hxd
        rcases List.mem_cons.mp hx with hx1 | hx2
        · subst hx1
          exact h4
        · by_cases hcmp : distSq x.x x.y cx cy ≤ distSq a.x a.y cx cy
          · exact h5 x hx2 hxa hxh hcmp
          · exact le_trans h4 (le_of_not_le hcmp)
    · rw [if_neg hc] at h
      obtain ⟨h1, h2, h3, h4, h5⟩ := ih _ _ _ h hbest
      refine ⟨h1, h2, ?_, h4, ?_⟩
      · rcases h3 with h3 | h3
        · exact Or.inl h3
        · exact Or.inr (List.mem_cons_of_mem _ h3)
      · intro x hx hxa hxh hxd
        rcases List.mem_cons.mp hx with hx1 | hx2
        · subst hx1
          exact absurd ⟨hxh, hxa, hxd⟩ hc
        · exact h5 x hx2 hxa hxh hxd

theorem chainNext_some_spec (cx cy r : ℚ) (hit : List ℕ) (all : List Agent) (nxt : Agent)
    (h : chainNext cx cy r hit all = some nxt) :
    nxt ∈ all ∧ nxt.active = true ∧ nxt.id ∉ hit ∧ 0 ≤ r ∧
    distSq nxt.x nxt.y cx cy ≤ r ^ 2 ∧
    (∀ a ∈ all, a.active = true → a.id ∉ hit → distSq a.x a.y cx cy ≤ r ^ 2 →
      distSq nxt.x nxt.y cx cy ≤ distSq a.x a.y cx cy) := by
  unfold chainNext at h
  by_cases hr : r < 0
  · rw [if_pos hr] at h
    cases h
  · rw [if_neg hr] at h
    obtain ⟨h1, h2, h3, h4, h5⟩ :=
      chainNextAux_some cx cy hit all none (r ^ 2) nxt h (by intro b hb; cases hb)
    rcases h3 with h3 | h3
    · exact Option.noConfusion h3
    · exact ⟨h3, h1, h2, le_of_not_lt hr, h4, h5⟩

theorem chainNext_none_spec (cx cy r : ℚ) (hit : List ℕ) (all : List Agent)
    (h : chainNext cx cy r hit all = none) :
    ∀ a ∈ all, a.active = true → a.id ∉ hit →
      ¬(0 ≤ r ∧ distSq a.x a.y cx cy ≤ r ^ 2) := by
  unfold chainNext at h
  by_cases hr : r < 0
  · intro a ha hact hhit hcon
    exact absurd hcon.1 (not_le.mpr hr)
  · rw [if_neg hr] at h
    intro a ha hact hhit hcon
    exact (chainNextAux_none cx cy hit all none (r ^ 2) h).2 a ha hact hhit hcon.2

theorem chainFrom_length (all : List Agent) (r : ℚ) :
    ∀ (fuel : ℕ) (hit : List ℕ) (cur : Agent),
      (chainFrom all r fuel hit cur).length ≤ fuel := by
  intro fuel
  induction fuel with
  | zero =>
    intro hit cur
    simp [chainFrom]
  | succ f ih =>
    intro hit cur
    simp only [chainFrom]
    by_cases hc : cur.id ∈ hit
    · rw [if_pos hc]
      simp
    · rw [if_neg hc]
      cases hn : chainNext cur.x cur.y r (cur.id :: hit) all with
      | none =>
        simp only [List.length_cons, List.length_nil]
        omega
      | some nxt =>
        simp only [List.length_cons]
        have := ih (cur.id :: hit) nxt
        omega

theorem chainFrom_avoid (all : List Agent) (r : ℚ) :
    ∀ (fuel : ℕ) (hit : List ℕ) (cur : Agent) (a : Agent),
      a ∈ chainFrom all r fuel hit cur → a.id ∉ hit := by
  intro fuel
  induction fuel with
  | zero =>
    intro hit cur a ha
    simp [chainFrom] at ha
  | succ f ih =>
    intro hit cur a ha
    simp only [chainFrom] at ha
    by_cases hc : cur.id ∈ hit
    · rw [if_pos hc] at ha
      cases ha
    · rw [if_neg hc] at ha
      rcases List.mem_cons.mp ha with h1 | h1
      · subst h1
        exact hc
      · cases hn : chainNext cur.x cur.y r (cur.id :: hit) all with
        | none =>
          rw [hn] at h1
          cases h1
        | some nxt =>
          rw [hn] at h1
          intro hmem
          exact ih (cur.id :: hit) nxt a h1 (List.mem_cons_of_mem _ hmem)

theorem chainFrom_memAll (all : List Agent) (r : ℚ) :
    ∀ (fuel : ℕ) (hit : List ℕ) (cur : Agent) (a : Agent),
      a ∈ chainFrom all r fuel hit cur → a = cur ∨ a ∈ all := by
  intro fuel
  induction fuel with
  | zero =>
    intro hit cur a ha
    simp [chainFrom] at ha
  | succ f ih =>
    intro hit cur a ha
    simp only [chainFrom] at ha
    by_cases hc : cur.id ∈ hit
    · rw [if_pos hc] at ha
      cases ha
    · rw [if_neg hc] at ha
      rcases List.mem_cons.mp ha with h1 | h1
      · exact Or.inl h1
      · cases hn : chainNext cur.x cur.y r (cur.id :: hit) all with
        | none =>
          rw [hn] at h1
          cases h1
        | some nxt =>
          rw [hn] at h1
          rcases ih (cur.id :: hit) nxt a h1 with h2 | h2
          · exact Or.inr (h2 ▸ (chainNext_some_spec _ _ _ _ _ _ hn).1)
          · exact Or.inr h2

theorem chainFrom_nodup (all : List Agent) (r : ℚ) :
    ∀ (fuel : ℕ) (hit : List ℕ) (cur : Agent),
      ((chainFrom all r fuel hit cur).map Agent.id).Nodup := by
  intro fuel
  induction fuel with
  | zero =>
    intro hit cur
    simp [chainFrom]
  | succ f ih =>
    intro hit cur
    simp only [chainFrom]
    by_cases hc : cur.id ∈ hit
    · rw [if_pos hc]
      simp
    · rw [if_neg hc]
      cases hn : chainNext cur.x cur.y r (cur.id :: hit) all with
      | none => simp
      | some nxt =>
        simp only [List.map_cons, List.nodup_cons]
        constructor
        · intro hmem
          rcases List.mem_map.mp hmem with ⟨b, hb, hbid⟩
          exact chainFrom_avoid all r f (cur.id :: hit) nxt b hb
            (by rw [hbid]; exact List.mem_cons_self _ _)
        · exact ih (cur.id :: hit) nxt

theorem chainFrom_head (all : List Agent) (r : ℚ) (fuel : ℕ) (hit : List ℕ) (cur : Agent)
    (hne : chainFrom all r fuel hit cur ≠ []) :
    ∃ rest, chainFrom all r fuel hit cur = cur :: rest := by
  cases fuel with
  | zero =>
    simp [chainFrom] at hne
  | succ f =>
    simp only [chainFrom] at hne ⊢
    by_cases hc : cur.id ∈ hit
    · rw [if_pos hc] at hne
      exact absurd rfl hne
    · rw [if_neg hc]
      exact ⟨_, rfl⟩

theorem nearestHop_congr (all : List Agent) (r : ℚ) (v1 v2 : List ℕ) (src dst : Agent)
    (hv : ∀ x, x ∈ v1 ↔ x ∈ v2) (h : NearestHop all r v1 src dst) :
    NearestHop all r v2 src dst := by
  obtain ⟨h1, h2, h3, h4, h5, h6⟩ := h
  refine ⟨h1, h2, fun hx => h3 ((hv _).mpr hx), h4, h5, ?_⟩
  intro b hb hba hbv hbd
  exact h6 b hb hba (fun hx => hbv ((hv _).mp hx)) hbd

theorem chainFrom_hop (all : List Agent) (r : ℚ) :
    ∀ (fuel : ℕ) (hit : List ℕ) (cur : Agent), cur.id ∉ hit →
      ∀ (pre : List Agent) (a b : Agent) (post : List Agent),
        chainFrom all r fuel hit cur = pre ++ a :: b :: post →
        NearestHop all r (hit ++ (pre ++ [a]).map Agent.id) a b := by
  intro fuel
  induction fuel with
  | zero =>
    intro hit cur hcur pre a b post heq
    rw [chainFrom] at heq
    cases pre <;> simp_all
  | succ f ih =>
    intro hit cur hcur pre a b post heq
    simp only [chainFrom] at heq
    rw [if_neg hcur] at heq
    cases hn : chainNext cur.x cur.y r (cur.id :: hit) all with
    | none =>
      rw [hn] at heq
      cases pre with
      | nil => simp at heq
      | cons p0 pre2 =>
        simp only [List.cons_append] at heq
        injection heq with h1 h2
        cases pre2 with
        | nil =>
          rw [List.nil_append] at h2
          exact List.noConfusion h2
        | cons q qs =>
          rw [List.cons_append] at h2
          exact List.noConfusion h2
    | some nxt =>
      rw [hn] at heq
      obtain ⟨hmem, hact, hhit2, hr0, hdist, hmin⟩ := chainNext_some_spec _ _ _ _ _ _ hn
      cases pre with
      | nil =>
        simp only [List.nil_append] at heq
        injection heq with h1 h2
        subst h1
        obtain ⟨rest, hrest⟩ := chainFrom_head all r f (cur.id :: hit) nxt
          (by rw [h2]; exact List.cons_ne_nil _ _)
        rw [hrest] at h2
        injection h2 with h3 h4
        subst h3
        refine nearestHop_congr all r (cur.id :: hit) _ cur nxt ?_
          ⟨hmem, hact, hhit2, hr0, hdist, hmin⟩
        intro x
        simp only [List.mem_append, List.mem_cons, List.map_nil, List.nil_append,
          List.map_cons, List.not_mem_nil, or_false]
        tauto
      | cons p0 pre2 =>
        simp only [List.cons_append] at heq
        injection heq with h1 h2
        subst h1
        have hstep := ih (cur.id :: hit) nxt hhit2 pre2 a b post h2
        refine nearestHop_congr all r _ _ a b ?_ hstep
        intro x
        simp only [List.map_append, List.map_cons, List.map_nil, List.mem_append,
          List.mem_cons, List.mem_singleton, List.not_mem_nil, or_false, false_or]
        tauto

theorem chainFrom_last (all : List Agent) (r : ℚ) :
    ∀ (fuel : ℕ) (hit : List ℕ) (cur : Agent), cur.id ∉ hit →
      ∀ (pre : List Agent) (a : Agent),
        chainFrom all r fuel hit cur = pre ++ [a] →
        (chainFrom all r fuel hit cur).length < fuel →
        ∀ b ∈ all, b.active = true →
          b.id ∉ hit ++ (chainFrom all r fuel hit cur).map Agent.id →
          ¬(0 ≤ r ∧ distSq b.x b.y a.x a.y ≤ r ^ 2) := by
  intro fuel
  induction fuel with
  | zero =>
    intro hit cur hcur pre a heq hlen
    simp [chainFrom] at hlen
  | succ f ih =>
    intro hit cur hcur pre a heq hlen b hb hact hbid
    simp only [chainFrom] at heq hlen hbid
    rw [if_neg hcur] at heq hlen hbid
    cases hn : chainNext cur.x cur.y r (cur.id :: hit) all with
    | none =>
      rw [hn] at heq hlen hbid
      have ha : a = cur := by
        cases pre with
        | nil =>
          rw [List.nil_append] at heq
          injection heq with h1 h2
          exact h1.symm
        | cons p0 pre2 =>
          rw [List.cons_append] at heq
          injection heq with h1 h2
          cases pre2 with
          | nil =>
            rw [List.nil_append] at h2
            exact List.noConfusion h2
          | cons q qs =>
            rw [List.cons_append] at h2
            exact List.noConfusion h2
      subst ha
      apply chainNext_none_spec a.x a.y r (a.id :: hit) all hn b hb hact
      intro hx
      apply hbid
      simp only [List.map_cons, List.map_nil, List.mem_append, List.mem_cons] at hx ⊢
      tauto
    | some nxt =>
      rw [hn] at heq hlen hbid
      obtain ⟨hmemN, hactN, hhit2, hr0, hdistN, hminN⟩ := chainNext_some_spec _ _ _ _ _ _ hn
      have hlen2 : (chainFrom all r f (cur.id :: hit) nxt).length < f := by
        simp only [List.length_cons] at hlen
        omega
      have hne2 : chainFrom all r f (cur.id :: hit) nxt ≠ [] := by
        cases hf : f with
        | zero =>
          rw [hf] at hlen2
          simp [chainFrom] at hlen2
        | succ f2 =>
          simp only [chainFrom]
          rw [if_neg hhit2]
          exact List.cons_ne_nil _ _
      cases pre with
      | nil =>
        rw [List.nil_append] at heq
        injection heq with h1 h2
        exact absurd h2 hne2
      | cons p0 pre2 =>
        rw [List.cons_append] at heq
        injection heq with h1 h2
        refine ih (cur.id :: hit) nxt hhit2 pre2 a h2 hlen2 b hb hact ?_
        intro hx
        apply hbid
        simp only [List.map_cons, List.mem_append, List.mem_cons] at hx ⊢
        tauto

/-- C6: one chain-lightning firing damages at most 5 agents, all distinct;
every hop in the damage sequence goes to an unvisited active agent within
the chain radius of the current link, at minimal distance among all such
candidates; and if the chain stops before the 5-hop cap, no unvisited active
agent within the radius of the last link remains. -/
theorem c6_chain_lightning (r : ℚ) (t : Agent) (all : List Agent) :
    (handleChainLightning r t all).length ≤ 5 ∧
    ((handleChainLightning r t all).map Agent.id).Nodup ∧
    (∀ pre a b post, handleChainLightning r t all = pre ++ a :: b :: post →
      NearestHop all r ((pre ++ [a]).map Agent.id) a b) ∧
    (∀ pre a, handleChainLightning r t all = pre ++ [a] →
      (handleChainLightning r t all).length < 5 →
      ∀ b ∈ all, b.active = true →
        b.id ∉ (handleChainLightning r t all).map Agent.id →
        ¬(0 ≤ r ∧ distSq b.x b.y a.x a.y ≤ r ^ 2)) := by
  refine ⟨chainFrom_length all r 5 [] t, chainFrom_nodup all r 5 [] t, ?_, ?_⟩
  · intro pre a b post heq
    have h := chainFrom_hop all r 5 [] t (List.not_mem_nil _) pre a b post heq
    simpa using h
  · intro pre a heq hlen b hb hact hbid
    refine chainFrom_last all r 5 [] t (List.not_mem_nil _) pre a heq hlen b hb hact ?_
    simpa using hbid

/-- C6 witness: among 8 active agents spaced 10 apart, all within the
default chain radius 80 of one another, the chain starting at agent 1
damages exactly 5 distinct agents 1, 2, 3, 4, 5 (each hop to the nearest
unvisited one) and then stops at the cap. -/
theorem c6_chain_lightning_witness :
    (handleChainLightning 80 (mkAgent 1 0 0) chainAgents).length ≤ 5 ∧
    ((handleChainLightning 80 (mkAgent 1 0 0) chainAgents).map Agent.id).Nodup ∧
    (handleChainLightning 80 (mkAgent 1 0 0) chainAgents).map Agent.id = [1, 2, 3, 4, 5] := by
  refine ⟨(c6_chain_lightning 80 (mkAgent 1 0 0) chainAgents).1,
    (c6_chain_lightning 80 (mkAgent 1 0 0) chainAgents).2.1, ?_⟩
  norm_num [handleChainLightning, chainFrom, chainNext, chainNextAux, chainAgents,
    mkAgent, distSq]

end Defense
